import Mathlib

/-!
Verification of the Vulkan shader generator `vulkan-shaders-gen.cpp`.

The development shallowly embeds the generator:
* the catalog builder `process_shaders` / `matmul_shaders` / `string_to_spv`
  (name generation, feature gating by the four compile-time capability macros),
* `merge_maps` over a model of `std::map<std::string, std::string>`,
* the artifact embedder `write_embed_files` (per-job chunks, hex byte literals,
  lookup tables) over a model of the file system,
* the change-detection writer `write_file_if_changed`,
* the command-line parser and exit-code logic of `main`.

Machine integers do not occur (all sizes are small, all byte values are read
from files as `unsigned char` and modelled as `Nat`).
-/

/-! ### Basic string utilities from the source -/

def string_starts_with (str pre : String) : Bool := pre.data.isPrefixOf str.data

def string_ends_with (str suffix : String) : Bool := suffix.data.isSuffixOf str.data

/-- `std::string::find(pat) != npos` on character lists: some suffix of `l`
has `pat` as a prefix. -/
def contains_sub (pat : List Char) : List Char → Bool
  | [] => pat.isEmpty
  | c :: t => pat.isPrefixOf (c :: t) || contains_sub pat t

/-- `s.find(pat) != std::string::npos`. -/
def str_contains (s pat : String) : Bool := contains_sub pat.data s.data

def is_legacy_quant (t : String) : Bool :=
  t == "q4_0" || t == "q4_1" || t == "q5_0" || t == "q5_1" || t == "q8_0"

/-- The hard-coded global `type_names` list. -/
def type_names : List String := [
  "f32", "f16", "q4_0", "q4_1", "q5_0", "q5_1", "q8_0",
  "q2_k", "q3_k", "q4_k", "q5_k", "q6_k",
  "iq1_s", "iq1_m", "iq2_xxs", "iq2_xs", "iq2_s",
  "iq3_xxs", "iq3_s", "iq4_xs", "iq4_nl", "mxfp4", "bf16"]

inductive MatMulIdType | NONE | DEFAULT | SUBGROUP
deriving DecidableEq

open MatMulIdType

/-- The four compile-time capability macros of the generator build:
`GGML_VULKAN_COOPMAT_GLSLC_SUPPORT`, `GGML_VULKAN_COOPMAT2_GLSLC_SUPPORT`,
`GGML_VULKAN_INTEGER_DOT_GLSLC_SUPPORT`, `GGML_VULKAN_BFLOAT16_GLSLC_SUPPORT`. -/
structure Caps where
  coopmat : Bool
  coopmat2 : Bool
  integer_dot : Bool
  bfloat16 : Bool

def allCaps : Caps := ⟨true, true, true, true⟩

def noCaps : Caps := ⟨false, false, false, false⟩

/-! ### Lexicographic string comparison (`std::string::operator<`) -/

def charsLt : List Char → List Char → Bool
  | _, [] => false
  | [], _ :: _ => true
  | a :: as, b :: bs => if a < b then true else if a = b then charsLt as bs else false

def strLt (a b : String) : Bool := charsLt a.data b.data

theorem charsLt_irrefl (l : List Char) : charsLt l l = false := by
  induction l with
  | nil => rfl
  | cons a t ih => simp [charsLt, lt_irrefl, ih]

theorem charsLt_trans {a b c : List Char} (h1 : charsLt a b = true)
    (h2 : charsLt b c = true) : charsLt a c = true := by
  induction a generalizing b c with
  | nil =>
    cases c with
    | nil => cases b <;> simp [charsLt] at h1 h2
    | cons y ys => rfl
  | cons x xs ih =>
    cases b with
    | nil => simp [charsLt] at h1
    | cons y ys =>
      cases c with
      | nil => simp [charsLt] at h2
      | cons z zs =>
        simp only [charsLt] at h1 h2 ⊢
        by_cases hxy : x < y
        · by_cases hyz : y < z
          · simp [lt_trans hxy hyz]
          · by_cases hyz2 : y = z
            · simp [hyz2 ▸ hxy]
            · simp [hyz, hyz2] at h2
        · by_cases hxy2 : x = y
          · subst hxy2
            by_cases hyz : x < z
            · simp [hyz]
            · by_cases hyz2 : x = z
              · subst hyz2
                simp [hxy] at h1 ⊢
                simp [hxy] at h2
                exact ih h1 h2
              · simp [hyz, hyz2] at h2
          · simp [hxy, hxy2] at h1

theorem charsLt_total {a b : List Char} (h1 : charsLt a b = false) (h2 : a ≠ b) :
    charsLt b a = true := by
  induction a generalizing b with
  | nil =>
    cases b with
    | nil => exact absurd rfl h2
    | cons y ys => simp [charsLt] at h1
  | cons x xs ih =>
    cases b with
    | nil => rfl
    | cons y ys =>
      simp only [charsLt] at h1 ⊢
      rcases lt_trichotomy x y with h | h | h
      · simp [h] at h1
      · subst h
        simp [lt_irrefl] at h1 ⊢
        have hne : xs ≠ ys := fun he => h2 (by rw [he])
        exact ih h1 hne
      · simp [h, ne_of_gt h]

theorem strLt_irrefl (a : String) : strLt a a = false := charsLt_irrefl _

theorem strLt_ne {a b : String} (h : strLt a b = true) : a ≠ b := by
  intro he
  rw [he, strLt, charsLt_irrefl] at h
  exact Bool.false_ne_true h

theorem strLt_total {a b : String} (h1 : strLt a b = false) (h2 : a ≠ b) :
    strLt b a = true :=
  charsLt_total h1 (fun he => h2 (String.ext he))

theorem strLt_trans {a b c : String} (h1 : strLt a b = true)
    (h2 : strLt b c = true) : strLt a c = true :=
  charsLt_trans h1 h2

/-! ### The `std::map<std::string, std::string>` model

A map is a key-sorted association list.  `std::map::insert` keeps the
existing mapping when the key is already present; `operator[]` + assignment
overwrites it. -/

abbrev SMap := List (String × String)

/-- Strict sortedness by key: the `std::map` representation invariant. -/
def IsMap (m : SMap) : Prop := List.Pairwise (fun p q => strLt p.1 q.1 = true) m

/-- `std::map::find` (as a lookup returning the mapped value). -/
def mapFind : SMap → String → Option String
  | [], _ => none
  | (k, v) :: t, q => if q = k then some v else mapFind t q

/-- `std::map::insert({k, v})`: inserted in key order, and the existing
value is KEPT if `k` is already present. -/
def mapInsert : SMap → String → String → SMap
  | [], k, v => [(k, v)]
  | (k1, v1) :: t, k, v =>
    if strLt k k1 then (k, v) :: (k1, v1) :: t
    else if k = k1 then (k1, v1) :: t
    else (k1, v1) :: mapInsert t k v

/-- `merge_maps(a, b)`: copy `a`, then `result.insert(b.begin(), b.end())`. -/
def merge_maps (a b : SMap) : SMap :=
  b.foldl (fun m kv => mapInsert m kv.1 kv.2) a

theorem mem_mapInsert {m : SMap} {k v : String} {p : String × String}
    (h : p ∈ mapInsert m k v) : p = (k, v) ∨ p ∈ m := by
  induction m with
  | nil => simpa [mapInsert] using h
  | cons q t ih =>
    obtain ⟨k1, v1⟩ := q
    by_cases h1 : strLt k k1
    · rcases (by simpa [mapInsert, h1] using h : p = (k, v) ∨ p = (k1, v1) ∨ p ∈ t) with
        h | h | h
      · exact Or.inl h
      · exact Or.inr (by simp [h])
      · exact Or.inr (List.mem_cons_of_mem _ h)
    · by_cases h2 : k = k1
      · subst h2
        exact Or.inr (by simpa [mapInsert, h1] using h)
      · rcases (by simpa [mapInsert, h1, h2] using h : p = (k1, v1) ∨ p ∈ mapInsert t k v)
          with h | h
        · exact Or.inr (by simp [h])
        · rcases ih h with h | h
          · exact Or.inl h
          · exact Or.inr (List.mem_cons_of_mem _ h)

theorem IsMap_mapInsert {m : SMap} (hm : IsMap m) (k v : String) :
    IsMap (mapInsert m k v) := by
  induction m with
  | nil => simp [mapInsert, IsMap]
  | cons q t ih =>
    obtain ⟨k1, v1⟩ := q
    rw [IsMap, List.pairwise_cons] at hm
    by_cases h1 : strLt k k1
    · rw [IsMap, mapInsert, if_pos h1, List.pairwise_cons]
      refine ⟨fun p hp => ?_, List.pairwise_cons.mpr hm⟩
      rcases List.mem_cons.mp hp with h | h
      · rw [h]; exact h1
      · exact strLt_trans h1 (hm.1 p h)
    · by_cases h2 : k = k1
      · rw [IsMap, mapInsert, if_neg h1, if_pos h2, List.pairwise_cons]
        exact hm
      · rw [IsMap, mapInsert, if_neg h1, if_neg h2, List.pairwise_cons]
        refine ⟨fun p hp => ?_, ih hm.2⟩
        rcases mem_mapInsert hp with h | h
        · rw [h]
          exact strLt_total (Bool.not_eq_true _ ▸ h1 : strLt k k1 = false) h2
        · exact hm.1 p h

theorem mapFind_mapInsert_ne (m : SMap) (k v q : String) (h : q ≠ k) :
    mapFind (mapInsert m k v) q = mapFind m q := by
  induction m with
  | nil => simp [mapInsert, mapFind, h]
  | cons p t ih =>
    obtain ⟨k1, v1⟩ := p
    by_cases h1 : strLt k k1
    · simp [mapInsert, h1, mapFind, h]
    · by_cases h2 : k = k1
      · subst h2
        simp [mapInsert, h1]
      · by_cases h3 : q = k1 <;> simp [mapInsert, h1, h2, mapFind, h3, ih]

theorem mapFind_eq_none_of_lt (m : SMap) (q : String)
    (h : ∀ p ∈ m, strLt q p.1 = true) : mapFind m q = none := by
  induction m with
  | nil => rfl
  | cons p t ih =>
    obtain ⟨k1, v1⟩ := p
    have hq : q ≠ k1 := strLt_ne (h (k1, v1) (List.mem_cons_self _ _))
    simp only [mapFind, if_neg hq]
    exact ih (fun p hp => h p (List.mem_cons_of_mem _ hp))

theorem mapFind_mapInsert_self (m : SMap) (hm : IsMap m) (k v : String) :
    mapFind (mapInsert m k v) k = some ((mapFind m k).getD v) := by
  induction m with
  | nil => simp [mapInsert, mapFind]
  | cons p t ih =>
    obtain ⟨k1, v1⟩ := p
    rw [IsMap, List.pairwise_cons] at hm
    by_cases h1 : strLt k k1
    · have hnone : mapFind ((k1, v1) :: t) k = none := by
        apply mapFind_eq_none_of_lt
        intro p hp
        rcases List.mem_cons.mp hp with h | h
        · rw [h]; exact h1
        · exact strLt_trans h1 (hm.1 p h)
      rw [hnone]
      simp [mapInsert, h1, mapFind]
    · by_cases h2 : k = k1
      · subst h2
        simp [mapInsert, h1, mapFind]
      · simp [mapInsert, h1, h2, mapFind, ih hm.2]

theorem merge_maps_find (a : SMap) (b : SMap) (ha : IsMap a) (k : String) :
    mapFind (merge_maps a b) k =
      match mapFind a k with
      | some v => some v
      | none => mapFind b k := by
  induction b generalizing a with
  | nil => cases h : mapFind a k <;> simp [merge_maps, h, mapFind]
  | cons p t ih =>
    obtain ⟨k1, v1⟩ := p
    rw [merge_maps, List.foldl_cons]
    have step := ih (mapInsert a k1 v1) (IsMap_mapInsert ha k1 v1)
    rw [merge_maps] at step
    rw [step]
    by_cases hk : k = k1
    · subst hk
      rw [mapFind_mapInsert_self a ha k v1]
      cases h : mapFind a k <;> simp [h, mapFind]
    · rw [mapFind_mapInsert_ne a k1 v1 k hk]
      cases h : mapFind a k <;> simp [h, mapFind, hk]

/-- C2, counterexample: with `a = {k ↦ 1}` and `b = {k ↦ 2}`, the merged map
keeps `a`'s value `1` — it does NOT map `k` to `b`'s value `2` as the claim
states (`std::map::insert` does not overwrite existing keys). -/
theorem merge_maps_counterexample :
    mapFind (merge_maps [("k", "1")] [("k", "2")]) "k" = some "1" ∧
    mapFind (merge_maps [("k", "1")] [("k", "2")]) "k" ≠ some "2" := by
  refine ⟨?_, ?_⟩ <;> simp [merge_maps, mapInsert, mapFind, strLt, charsLt]

/-- C2, amended: for a key present in both maps, `merge_maps a b` keeps `a`'s
value (the EARLIER merge source wins); keys present in only one source keep
that source's value. -/
theorem merge_maps_first_wins (a b : SMap) (ha : IsMap a) (k : String) :
    mapFind (merge_maps a b) k =
      match mapFind a k with
      | some v => some v
      | none => mapFind b k :=
  merge_maps_find a b ha k

/-- Witness for `merge_maps_first_wins` at a concrete input: the key `x` is
in both sources and keeps value `1`; the key `y` is only in `b`. -/
theorem merge_maps_first_wins_witness :
    IsMap [("x", "1")] ∧
    (mapFind (merge_maps [("x", "1")] [("x", "2"), ("y", "3")]) "x" =
      match mapFind [("x", "1")] "x" with
      | some v => some v
      | none => mapFind [("x", "2"), ("y", "3")] "x") ∧
    (mapFind (merge_maps [("x", "1")] [("x", "2"), ("y", "3")]) "y" =
      match mapFind [("x", "1")] "y" with
      | some v => some v
      | none => mapFind [("x", "2"), ("y", "3")] "y") := by
  have h : IsMap [("x", "1")] := by simp [IsMap]
  exact ⟨h, merge_maps_first_wins [("x", "1")] [("x", "2"), ("y", "3")] h "x",
    merge_maps_first_wins [("x", "1")] [("x", "2"), ("y", "3")] h "y"⟩

/-! ### `string_to_spv`: job names and compiler flags -/

/-- The name suffix computation at the top of `string_to_spv`. -/
def string_to_spv_name (name : String) (fp16 coopmat coopmat2 f16acc : Bool) : String :=
  name ++ (if f16acc then "_f16acc" else "")
       ++ (if coopmat then "_cm1" else "")
       ++ (if coopmat2 then "_cm2" else (if fp16 then "" else "_fp32"))

structure CompileJob where
  name : String
  in_path : String
  out_path : String
  flags : List String

/-- Rendering of one entry of `defines` as a compiler flag: `-D<key>=<value>`. -/
def define_flag (d : String × String) : String := "-D" ++ d.1 ++ "=" ++ d.2

/-- The flag list built by `string_to_spv` from the full (suffixed) job name:
shader stage, target environment, optimization level, optional debug info,
then one `-D` flag per define. -/
def string_to_spv_flags (full_name : String) (defines : SMap) (coopmat dbg : Bool) :
    List String :=
  ["-fshader-stage=compute",
   (if str_contains full_name "_cm2" then "--target-env=vulkan1.3" else "--target-env=vulkan1.2"),
   (if coopmat || str_contains full_name "bf16" then "" else "-O")] ++
  (if dbg then ["-g"] else []) ++ defines.map define_flag

/-- The job built by `string_to_spv` (name, paths and flag list; `dbg` is the
`GGML_VULKAN_SHADER_DEBUG_INFO` macro). -/
def string_to_spv (input_dir output_dir name in_fname : String) (defines : SMap)
    (fp16 coopmat coopmat2 f16acc dbg : Bool) : CompileJob :=
  { name := string_to_spv_name name fp16 coopmat coopmat2 f16acc
    in_path := input_dir ++ "/" ++ in_fname
    out_path := output_dir ++ "/" ++ (string_to_spv_name name fp16 coopmat coopmat2 f16acc ++ ".spv")
    flags := string_to_spv_flags (string_to_spv_name name fp16 coopmat coopmat2 f16acc)
      defines coopmat dbg }

theorem define_flag_take2 (d : String × String) :
    (define_flag d).data.take 2 = ['-', 'D'] := by
  obtain ⟨x, y⟩ := d
  show (("-D" ++ x ++ "=" ++ y)).data.take 2 = _
  rw [String.data_append, String.data_append, String.data_append]
  rw [show (("-D" : String).data ++ x.data) ++ (("=" : String).data) ++ y.data
      = ("-D" : String).data ++ (x.data ++ ((("=" : String).data) ++ y.data)) by
    simp [List.append_assoc]]
  rfl

theorem define_flag_ne (d : String × String) (s : String)
    (hs : s.data.take 2 ≠ ['-', 'D']) : define_flag d ≠ s :=
  fun h => hs (h ▸ define_flag_take2 d)

theorem string_to_spv_flags_mem (full_name : String) (defines : SMap)
    (coopmat dbg : Bool) :
    (("-O" ∈ string_to_spv_flags full_name defines coopmat dbg) ↔
      (coopmat = false ∧ str_contains full_name "bf16" = false)) ∧
    (("--target-env=vulkan1.3" ∈ string_to_spv_flags full_name defines coopmat dbg) ↔
      str_contains full_name "_cm2" = true) ∧
    (("--target-env=vulkan1.2" ∈ string_to_spv_flags full_name defines coopmat dbg) ↔
      str_contains full_name "_cm2" = false) := by
  have hO : ∀ d : String × String, define_flag d = "-O" → False :=
    fun d h => define_flag_ne d _ (by decide) h
  have h13 : ∀ d : String × String, define_flag d = "--target-env=vulkan1.3" → False :=
    fun d h => define_flag_ne d _ (by decide) h
  have h12 : ∀ d : String × String, define_flag d = "--target-env=vulkan1.2" → False :=
    fun d h => define_flag_ne d _ (by decide) h
  by_cases hc2 : str_contains full_name "_cm2" <;>
    by_cases hco : coopmat <;>
    by_cases hbf : str_contains full_name "bf16" <;>
    cases dbg <;>
    simp [string_to_spv_flags, hc2, hco, hbf, hO, h13, h12,
      List.mem_cons, List.mem_append, List.mem_map] <;>
    first
    | exact fun x y _ h => hO (x, y) h
    | exact fun x y _ h => h13 (x, y) h
    | exact fun x y _ h => h12 (x, y) h
    | exact ⟨fun x y _ h => hO (x, y) h, fun x y _ h => h13 (x, y) h⟩
    | exact ⟨fun x y _ h => hO (x, y) h, fun x y _ h => h12 (x, y) h⟩

/-- C5: `-O` is omitted from a job\'s flag list exactly when the job is a
cooperative-matrix (level 1) variant or a bf16 variant (its full name contains
`"bf16"`); the target environment is `vulkan1.3` exactly when the full name
contains `"_cm2"`, and `vulkan1.2` otherwise. -/
theorem string_to_spv_opt_and_target_env (input_dir output_dir name in_fname : String)
    (defines : SMap) (fp16 coopmat coopmat2 f16acc dbg : Bool) :
    (("-O" ∈ (string_to_spv input_dir output_dir name in_fname defines
        fp16 coopmat coopmat2 f16acc dbg).flags) ↔
      (coopmat = false ∧
       str_contains (string_to_spv input_dir output_dir name in_fname defines
          fp16 coopmat coopmat2 f16acc dbg).name "bf16" = false)) ∧
    (("--target-env=vulkan1.3" ∈ (string_to_spv input_dir output_dir name in_fname defines
        fp16 coopmat coopmat2 f16acc dbg).flags) ↔
      str_contains (string_to_spv input_dir output_dir name in_fname defines
          fp16 coopmat coopmat2 f16acc dbg).name "_cm2" = true) ∧
    (("--target-env=vulkan1.2" ∈ (string_to_spv input_dir output_dir name in_fname defines
        fp16 coopmat coopmat2 f16acc dbg).flags) ↔
      str_contains (string_to_spv input_dir output_dir name in_fname defines
          fp16 coopmat coopmat2 f16acc dbg).name "_cm2" = false) :=
  string_to_spv_flags_mem (string_to_spv_name name fp16 coopmat coopmat2 f16acc)
    defines coopmat dbg

/-! ### The catalog of job names built by `process_shaders`

`process_shaders` records each job by calling `string_to_spv`; the functions
below compute, in call order, the full job names it records, for each setting
of the capability macros.  Defines, source file names and paths do not
influence names and are omitted from this projection. -/

def matmul_shader_names (caps : Caps) (fp16 : Bool) (matmul_id_type : MatMulIdType)
    (coopmat coopmat2 f16acc : Bool) : List String :=
  let shader_name : String :=
    match matmul_id_type with
    | NONE => "matmul"
    | DEFAULT => "matmul_id"
    | SUBGROUP => "matmul_id_subgroup"
  let mk : String → String := fun base => string_to_spv_name base fp16 coopmat coopmat2 f16acc
  [mk (shader_name ++ "_f32_f16"), mk (shader_name ++ "_f32_f16_aligned"),
   mk (shader_name ++ "_f16_aligned"), mk (shader_name ++ "_f16")] ++
  (if caps.bfloat16 || !(coopmat || coopmat2) then
      [mk (shader_name ++ "_bf16_aligned"), mk (shader_name ++ "_bf16")]
    else []) ++
  type_names.flatMap (fun tname =>
    if tname == "bf16" then [] else
    (if !coopmat2 then
        [mk (shader_name ++ "_" ++ tname ++ "_f32"),
         mk (shader_name ++ "_" ++ tname ++ "_f32_aligned")]
      else []) ++
    (if tname != "f16" && tname != "f32" then
        [mk (shader_name ++ "_" ++ tname ++ "_f16"),
         mk (shader_name ++ "_" ++ tname ++ "_f16_aligned")]
      else []) ++
    (if caps.integer_dot && !coopmat && !coopmat2 && matmul_id_type == NONE
        && is_legacy_quant tname then
        [mk (shader_name ++ "_" ++ tname ++ "_q8_1")]
      else []))

def ps_matmul (caps : Caps) : List String :=
  [NONE, DEFAULT, SUBGROUP].flatMap (fun matmul_id_type =>
    matmul_shader_names caps false matmul_id_type false false false ++
    matmul_shader_names caps true matmul_id_type false false false ++
    matmul_shader_names caps true matmul_id_type false false true ++
    (if matmul_id_type != DEFAULT then
       (if caps.coopmat then
          matmul_shader_names caps true matmul_id_type true false false ++
          matmul_shader_names caps true matmul_id_type true false true
        else []) ++
       (if caps.coopmat2 then
          matmul_shader_names caps true matmul_id_type false true false ++
          matmul_shader_names caps true matmul_id_type false true true
        else [])
     else []))

def ps_flash_attn (caps : Caps) : List String :=
  [false, true].flatMap (fun f16acc =>
    type_names.flatMap (fun tname =>
      if tname == "f32" then [] else
      if tname == "bf16" then [] else
      (if caps.coopmat2 then
         [string_to_spv_name ("flash_attn_f32_f16_" ++ tname) true false true f16acc]
       else []) ++
      (if caps.coopmat then
         (if tname == "f16" then
            [string_to_spv_name ("flash_attn_f32_f16_" ++ tname) true true false f16acc]
          else if tname == "q4_0" || tname == "q8_0" then
            [string_to_spv_name ("flash_attn_f32_f16_" ++ tname) true true false f16acc]
          else [])
       else []) ++
      (if tname == "f16" then
         [string_to_spv_name ("flash_attn_f32_f16_" ++ tname) true false false f16acc]
       else if tname == "q4_0" || tname == "q8_0" then
         [string_to_spv_name ("flash_attn_f32_f16_" ++ tname) true false false f16acc]
       else [])))

def ps_mul_mat_vec (caps : Caps) : List String :=
  type_names.flatMap (fun tname =>
    ["mul_mat_vec_" ++ tname ++ "_f32_f32",
     "mul_mat_vec_" ++ tname ++ "_f16_f32",
     "mul_mat_vec_" ++ tname ++ "_f32_f32_subgroup",
     "mul_mat_vec_" ++ tname ++ "_f16_f32_subgroup",
     "mul_mat_vec_" ++ tname ++ "_f32_f32_subgroup_no_shmem",
     "mul_mat_vec_" ++ tname ++ "_f16_f32_subgroup_no_shmem",
     "mul_mat_vec_id_" ++ tname ++ "_f32"] ++
    (if caps.integer_dot && is_legacy_quant tname then
       ["mul_mat_vec_" ++ tname ++ "_q8_1_f32",
        "mul_mat_vec_" ++ tname ++ "_q8_1_f32_subgroup",
        "mul_mat_vec_" ++ tname ++ "_q8_1_f32_subgroup_no_shmem"]
     else []) ++
    (if tname != "f16" && tname != "bf16" then ["dequant_" ++ tname] else []) ++
    (if !string_ends_with tname "_k" then
       ["get_rows_" ++ tname, "get_rows_" ++ tname ++ "_f32"]
     else []))

def ps_various1 : List String :=
  ["mul_mat_vec_p021_f16_f32_subgroup_add", "mul_mat_vec_p021_f16_f32", "mul_mat_vec_nc_f16_f32",
   "norm_f32", "group_norm_f32", "rms_norm_f32", "rms_norm_partials_f32", "rms_norm_back_f32",
   "l2_norm_f32",
   "cpy_f32_f32", "cpy_f32_f16", "cpy_f16_f16", "cpy_f16_f32", "cpy_f32_bf16",
   "contig_cpy_f32_f32", "contig_cpy_f32_i32", "contig_cpy_i32_f32", "contig_cpy_f32_f16",
   "contig_cpy_f16_f16", "contig_cpy_f16_f32", "contig_cpy_f32_bf16",
   "cpy_f32_i32", "cpy_i32_f32"] ++
  (["q4_0", "q4_1", "q5_0", "q5_1", "q8_0", "iq4_nl"].flatMap (fun t =>
     ["cpy_f32_" ++ t, "cpy_f32_" ++ t ++ "_rte", "cpy_" ++ t ++ "_f32"])) ++
  (["f32", "f16", "bf16", "q4_0", "q4_1", "q5_0", "q5_1", "q8_0", "iq4_nl"].flatMap (fun t =>
     ["set_rows_" ++ t, "set_rows_" ++ t ++ "_rte"]))

/-- The `get_suffix` lambda of the element-wise loop. -/
def get_suffix (src0_f16 src1_f16 dst_f16 : Bool) : String :=
  (if src0_f16 then "_f16" else "_f32") ++
  (if src1_f16 then "_f16" else "_f32") ++
  (if dst_f16 then "_f16" else "_f32")

def ps_elementwise : List String :=
  ["add", "sub", "mul", "div", "add_rms"].flatMap (fun op =>
  [false, true].flatMap (fun src0_f16 =>
  [false, true].flatMap (fun src1_f16 =>
  [false, true].flatMap (fun dst_f16 =>
  [false, true].map (fun rte =>
    op ++ get_suffix src0_f16 src1_f16 dst_f16 ++ (if rte then "_rte" else ""))))))

def ps_various2 : List String :=
  ["sub_f32", "acc_f32", "split_k_reduce", "fa_split_k_reduce",
   "quantize_q8_1", "quantize_q8_1_subgroup", "quantize_q8_1_x4", "quantize_q8_1_x4_subgroup",
   "mul_f32", "div_f32", "repeat_f32", "repeat_back_f32", "scale_f32", "sqr_f32", "sqrt_f32",
   "sin_f32", "cos_f32", "clamp_f32", "pad_f32", "concat_f32", "concat_f16", "concat_i32",
   "upscale_f32",
   "exp_f16", "exp_f32", "gelu_f16", "gelu_f32", "gelu_erf_f16", "gelu_erf_f32",
   "gelu_quick_f16", "gelu_quick_f32", "silu_f16", "silu_f32", "relu_f16", "relu_f32",
   "tanh_f16", "tanh_f32", "sigmoid_f16", "sigmoid_f32", "hardsigmoid_f16", "hardsigmoid_f32",
   "hardswish_f16", "hardswish_f32"] ++
  ([false, true].flatMap (fun rte =>
    let suffix := if rte then "_rte" else ""
    ["geglu_f16" ++ suffix, "geglu_f32" ++ suffix, "reglu_f16" ++ suffix, "reglu_f32" ++ suffix,
     "swiglu_f16" ++ suffix, "swiglu_f32" ++ suffix, "swiglu_oai_f16" ++ suffix,
     "swiglu_oai_f32" ++ suffix, "geglu_erf_f16" ++ suffix, "geglu_erf_f32" ++ suffix,
     "geglu_quick_f16" ++ suffix, "geglu_quick_f32" ++ suffix])) ++
  ["leaky_relu_f32", "silu_back_f32", "diag_mask_inf_f32",
   "soft_max_f32", "soft_max_f32_f16", "soft_max_back_f32",
   "rope_norm_f32", "rope_norm_f16", "rope_norm_f16_rte",
   "rope_neox_f32", "rope_neox_f16", "rope_neox_f16_rte",
   "rope_multi_f32", "rope_multi_f16", "rope_multi_f16_rte",
   "rope_vision_f32", "rope_vision_f16", "rope_vision_f16_rte",
   "argsort_f32", "argmax_f32", "sum_rows_f32", "count_equal_i32",
   "im2col_f32", "im2col_f32_f16", "im2col_f32_f16_rte",
   "im2col_3d_f32", "im2col_3d_f32_f16", "im2col_3d_f32_f16_rte",
   "timestep_embedding_f32", "conv_transpose_1d_f32", "pool2d_f32",
   "rwkv_wkv6_f32", "rwkv_wkv7_f32", "opt_step_adamw_f32", "opt_step_sgd_f32",
   "conv2d_f32_unroll", "conv2d_f16_f32_unroll", "conv2d_f32", "conv2d_f16_f32"]

def ps_conv2d_cm2 (caps : Caps) : List String :=
  if caps.coopmat2 then
    [string_to_spv_name "conv2d_f32" true false true false,
     string_to_spv_name "conv2d_f16_f32" true false true false]
  else []

def ps_tail : List String :=
  ["conv2d_dw_whcn_f32", "conv2d_dw_cwhn_f32", "conv2d_dw_whcn_f16_f32", "conv2d_dw_cwhn_f16_f32",
   "roll_f32", "add_id_f32", "multi_add_f32", "multi_add_rms_f32"]

/-- All job names recorded in `shader_fnames` by one run of `process_shaders`,
in call order, as a function of the capability macros. -/
def process_shader_names (caps : Caps) : List String :=
  ps_matmul caps ++ ps_flash_attn caps ++ ps_mul_mat_vec caps ++ ps_various1 ++
  ps_elementwise ++ ps_various2 ++ ps_conv2d_cm2 caps ++ ps_tail

/-! ### A fuel-based merge sort used as a duplicate-detection certificate

Only the permutation property is proved (and needed): a strictly increasing
reordering of the key list certifies that the keys are pairwise distinct. -/

/-- Injection of strings into `Nat` (base-256 big-endian over the character
codes, with a leading 1): duplicate names yield duplicate keys. -/
def strKey (s : String) : Nat := s.data.foldl (fun n c => n * 256 + c.toNat) 1

def mergeFuel : Nat → List Nat → List Nat → List Nat
  | 0, a, b => a ++ b
  | _ + 1, [], b => b
  | _ + 1, x :: xs, [] => x :: xs
  | fuel + 1, x :: xs, y :: ys =>
    if x ≤ y then x :: mergeFuel fuel xs (y :: ys) else y :: mergeFuel fuel (x :: xs) ys

def msortFuel : Nat → List Nat → List Nat
  | 0, l => l
  | fuel + 1, l =>
    if l.length ≤ 1 then l else
    mergeFuel l.length (msortFuel fuel (l.take (l.length / 2)))
      (msortFuel fuel (l.drop (l.length / 2)))

def chainLt : List Nat → Bool
  | [] => true
  | [_] => true
  | a :: b :: t => decide (a < b) && chainLt (b :: t)

theorem mergeFuel_perm (fuel : Nat) (a b : List Nat) :
    List.Perm (mergeFuel fuel a b) (a ++ b) := by
  induction fuel generalizing a b with
  | zero => exact List.Perm.refl _
  | succ f ih =>
    match a, b with
    | [], b => simp [mergeFuel]
    | x :: xs, [] => simp [mergeFuel]
    | x :: xs, y :: ys =>
      rw [mergeFuel]
      by_cases h : x ≤ y
      · rw [if_pos h]
        exact List.Perm.cons x (ih xs (y :: ys))
      · rw [if_neg h]
        exact (List.Perm.cons y (ih (x :: xs) ys)).trans List.perm_middle.symm

theorem msortFuel_perm (fuel : Nat) (l : List Nat) :
    List.Perm (msortFuel fuel l) l := by
  induction fuel generalizing l with
  | zero => exact List.Perm.refl _
  | succ f ih =>
    rw [msortFuel]
    by_cases h : l.length ≤ 1
    · rw [if_pos h]
    · rw [if_neg h]
      refine (mergeFuel_perm _ _ _).trans ?_
      refine ((ih _).append (ih _)).trans ?_
      rw [List.take_append_drop]

theorem chainLt_chain' (l : List Nat) (h : chainLt l = true) :
    List.Chain' (fun a b : Nat => a < b) l := by
  induction l with
  | nil => exact List.chain'_nil
  | cons a t ih =>
    cases t with
    | nil => simp
    | cons b s =>
      rw [chainLt, Bool.and_eq_true, decide_eq_true_eq] at h
      exact List.chain'_cons.mpr ⟨h.1, ih h.2⟩

theorem nodup_of_chainLt_msort (l : List Nat)
    (h : chainLt (msortFuel l.length l) = true) : l.Nodup := by
  have hp : List.Pairwise (fun a b : Nat => a < b) (msortFuel l.length l) :=
    List.chain'_iff_pairwise.mp (chainLt_chain' _ h)
  have hnd : (msortFuel l.length l).Nodup := hp.imp Nat.ne_of_lt
  exact ((msortFuel_perm l.length l).nodup_iff).mp hnd

/-! ### Monotonicity of the catalog in the capability macros -/

/-- Pointwise implication of capability macro settings. -/
def Caps.Le (a b : Caps) : Prop :=
  (a.coopmat = true → b.coopmat = true) ∧ (a.coopmat2 = true → b.coopmat2 = true) ∧
  (a.integer_dot = true → b.integer_dot = true) ∧ (a.bfloat16 = true → b.bfloat16 = true)

theorem caps_le_allCaps (caps : Caps) : Caps.Le caps allCaps :=
  ⟨fun _ => rfl, fun _ => rfl, fun _ => rfl, fun _ => rfl⟩

theorem if_sublist {α : Type} {c d : Bool} {X Y : List α} (h : c = true → d = true)
    (hXY : List.Sublist X Y) :
    List.Sublist (if c then X else []) (if d then Y else []) := by
  cases hc : c
  · simp
  · rw [h hc]
    simpa using hXY

theorem flatMap_sublist {α β : Type} {l : List α} {f g : α → List β}
    (h : ∀ a ∈ l, List.Sublist (f a) (g a)) :
    List.Sublist (l.flatMap f) (l.flatMap g) := by
  induction l with
  | nil => simp
  | cons a t ih =>
    simp only [List.flatMap_cons]
    exact (h a (List.mem_cons_self _ _)).append (ih (fun x hx => h x (List.mem_cons_of_mem _ hx)))

theorem matmul_shader_names_sublist {a b : Caps} (h : Caps.Le a b) (fp16 : Bool)
    (idt : MatMulIdType) (c1 c2 acc : Bool) :
    List.Sublist (matmul_shader_names a fp16 idt c1 c2 acc)
      (matmul_shader_names b fp16 idt c1 c2 acc) := by
  unfold matmul_shader_names
  refine List.Sublist.append (List.Sublist.append (List.Sublist.refl _) ?_) ?_
  · refine if_sublist ?_ (List.Sublist.refl _)
    intro hc
    rcases Bool.or_eq_true_iff.mp hc with hbf | hk
    · exact Bool.or_eq_true_iff.mpr (Or.inl (h.2.2.2 hbf))
    · exact Bool.or_eq_true_iff.mpr (Or.inr hk)
  · refine flatMap_sublist ?_
    intro t ht
    by_cases hbf : t == "bf16"
    · simp [hbf]
    · simp only [hbf, Bool.false_eq_true, if_false]
      refine List.Sublist.append
        (List.Sublist.append (List.Sublist.refl _) (List.Sublist.refl _))
        (if_sublist ?_ (List.Sublist.refl _))
      intro hc
      simp only [Bool.and_eq_true] at hc ⊢
      exact ⟨⟨⟨⟨h.2.2.1 hc.1.1.1.1, hc.1.1.1.2⟩, hc.1.1.2⟩, hc.1.2⟩, hc.2⟩

theorem ps_matmul_sublist {a b : Caps} (h : Caps.Le a b) :
    List.Sublist (ps_matmul a) (ps_matmul b) := by
  unfold ps_matmul
  refine flatMap_sublist ?_
  intro idt hidt
  refine List.Sublist.append
    (List.Sublist.append
      (List.Sublist.append (matmul_shader_names_sublist h _ _ _ _ _)
        (matmul_shader_names_sublist h _ _ _ _ _))
      (matmul_shader_names_sublist h _ _ _ _ _))
    (if_sublist (fun hc => hc) (List.Sublist.append ?_ ?_))
  · exact if_sublist h.1 (List.Sublist.append (matmul_shader_names_sublist h _ _ _ _ _)
      (matmul_shader_names_sublist h _ _ _ _ _))
  · exact if_sublist h.2.1 (List.Sublist.append (matmul_shader_names_sublist h _ _ _ _ _)
      (matmul_shader_names_sublist h _ _ _ _ _))

theorem ps_flash_attn_sublist {a b : Caps} (h : Caps.Le a b) :
    List.Sublist (ps_flash_attn a) (ps_flash_attn b) := by
  unfold ps_flash_attn
  refine flatMap_sublist (fun acc hacc => flatMap_sublist (fun t ht => ?_))
  by_cases h32 : t == "f32"
  · simp [h32]
  · simp only [h32, Bool.false_eq_true, if_false]
    by_cases hbf : t == "bf16"
    · simp [hbf]
    · simp only [hbf, Bool.false_eq_true, if_false]
      exact List.Sublist.append
        (List.Sublist.append (if_sublist h.2.1 (List.Sublist.refl _))
          (if_sublist h.1 (List.Sublist.refl _)))
        (List.Sublist.refl _)

theorem ps_mul_mat_vec_sublist {a b : Caps} (h : Caps.Le a b) :
    List.Sublist (ps_mul_mat_vec a) (ps_mul_mat_vec b) := by
  unfold ps_mul_mat_vec
  refine flatMap_sublist (fun t ht => ?_)
  refine List.Sublist.append
    (List.Sublist.append
      (List.Sublist.append (List.Sublist.refl _) (if_sublist ?_ (List.Sublist.refl _)))
      (List.Sublist.refl _))
    (List.Sublist.refl _)
  intro hc
  simp only [Bool.and_eq_true] at hc ⊢
  exact ⟨h.2.2.1 hc.1, hc.2⟩

theorem ps_conv2d_cm2_sublist {a b : Caps} (h : Caps.Le a b) :
    List.Sublist (ps_conv2d_cm2 a) (ps_conv2d_cm2 b) := by
  unfold ps_conv2d_cm2
  exact if_sublist h.2.1 (List.Sublist.refl _)

theorem process_shader_names_sublist {a b : Caps} (h : Caps.Le a b) :
    List.Sublist (process_shader_names a) (process_shader_names b) := by
  unfold process_shader_names
  exact List.Sublist.append
    (List.Sublist.append
      (List.Sublist.append
        (List.Sublist.append
          (List.Sublist.append
            (List.Sublist.append
              (List.Sublist.append (ps_matmul_sublist h) (ps_flash_attn_sublist h))
              (ps_mul_mat_vec_sublist h))
            (List.Sublist.refl _))
          (List.Sublist.refl _))
        (List.Sublist.refl _))
      (ps_conv2d_cm2_sublist h))
    (List.Sublist.refl _)

set_option maxRecDepth 100000 in
theorem process_shader_names_allCaps_nodup : (process_shader_names allCaps).Nodup :=
  List.Nodup.of_map strKey (nodup_of_chainLt_msort _ (by decide!))

/-- C1: for every combination of the compile-time capability flags, the job
names recorded in `shader_fnames` by one run of `process_shaders` are pairwise
distinct. -/
theorem process_shader_names_nodup (caps : Caps) : (process_shader_names caps).Nodup :=
  (process_shader_names_sublist (caps_le_allCaps caps)).nodup
    process_shader_names_allCaps_nodup


/-! ### The minimal-capability catalog (scenario of claim C6) -/

set_option maxRecDepth 100000 in
theorem noCaps_bf16_elem :
    List.elem "matmul_bf16" (process_shader_names noCaps) = true := by decide!

/-- C6, counterexample: with no capability macros defined, the catalog DOES
contain a bf16 matrix-multiply job — the scalar promote-to-float bf16 shader
`matmul_bf16` is generated unconditionally (the `#if !defined(...)` gate around
the bf16 block only restricts it to the non-cooperative-matrix calls). -/
theorem process_shaders_noCaps_bf16_counterexample :
    "matmul_bf16" ∈ process_shader_names noCaps ∧
    string_starts_with "matmul_bf16" "matmul" = true ∧
    str_contains "matmul_bf16" "bf16" = true :=
  ⟨List.elem_iff.mp noCaps_bf16_elem, by decide!, by decide!⟩

set_option maxRecDepth 100000 in
theorem noCaps_no_cm_all :
    (process_shader_names noCaps).all
      (fun n => !(str_contains n "_cm1") && !(str_contains n "_cm2")) = true := by decide!

set_option maxRecDepth 100000 in
theorem noCaps_no_q8_1_all :
    (process_shader_names noCaps).all
      (fun n => !(string_starts_with n "matmul" || string_starts_with n "mul_mat_vec")
        || !(str_contains n "_q8_1")) = true := by decide!

set_option maxRecDepth 100000 in
theorem noCaps_base_matmul_elem :
    (["matmul_f32_f32", "matmul_f32_f32_aligned", "matmul_f16", "matmul_f16_aligned",
      "matmul_q4_0_f32", "matmul_q4_0_f32_aligned", "matmul_q4_0_f16",
      "matmul_q4_0_f16_aligned", "matmul_bf16", "matmul_bf16_aligned"].all
      (fun n => List.elem n (process_shader_names noCaps))) = true := by decide!

/-- C6, amended: with no capability macros defined, the catalog contains no
cooperative-matrix job (no `_cm1`/`_cm2` name) and no integer-dot job (no
`_q8_1` matmul / mat-vec variant), contains the base f32, f16 and q4_0
matrix-multiply variants in aligned and unaligned form, and additionally
contains the scalar promote-to-float bf16 matrix-multiply variants
(`matmul_bf16`, `matmul_bf16_aligned`), which by the first conjunct are not
cooperative-matrix jobs. -/
theorem process_shaders_noCaps_scenario :
    (∀ n ∈ process_shader_names noCaps,
      str_contains n "_cm1" = false ∧ str_contains n "_cm2" = false) ∧
    (∀ n ∈ process_shader_names noCaps,
      (string_starts_with n "matmul" || string_starts_with n "mul_mat_vec") = true →
        str_contains n "_q8_1" = false) ∧
    ("matmul_f32_f32" ∈ process_shader_names noCaps ∧
     "matmul_f32_f32_aligned" ∈ process_shader_names noCaps ∧
     "matmul_f16" ∈ process_shader_names noCaps ∧
     "matmul_f16_aligned" ∈ process_shader_names noCaps ∧
     "matmul_q4_0_f32" ∈ process_shader_names noCaps ∧
     "matmul_q4_0_f32_aligned" ∈ process_shader_names noCaps ∧
     "matmul_q4_0_f16" ∈ process_shader_names noCaps ∧
     "matmul_q4_0_f16_aligned" ∈ process_shader_names noCaps) ∧
    ("matmul_bf16" ∈ process_shader_names noCaps ∧
     "matmul_bf16_aligned" ∈ process_shader_names noCaps) := by
  have hb := List.all_eq_true.mp noCaps_base_matmul_elem
  simp only [List.mem_cons, List.mem_singleton, forall_eq_or_imp, forall_eq] at hb
  refine ⟨?_, ?_, ?_, ?_⟩
  · intro n hn
    have h := List.all_eq_true.mp noCaps_no_cm_all n hn
    simp only [Bool.and_eq_true, Bool.not_eq_true'] at h
    exact h
  · intro n hn hst
    have h := List.all_eq_true.mp noCaps_no_q8_1_all n hn
    simp only [Bool.or_eq_true, Bool.not_eq_true'] at h
    rcases h with h | h
    · rw [hst] at h
      cases h
    · exact h
  · exact ⟨List.elem_iff.mp hb.1, List.elem_iff.mp hb.2.1, List.elem_iff.mp hb.2.2.1,
      List.elem_iff.mp hb.2.2.2.1, List.elem_iff.mp hb.2.2.2.2.1,
      List.elem_iff.mp hb.2.2.2.2.2.1, List.elem_iff.mp hb.2.2.2.2.2.2.1,
      List.elem_iff.mp hb.2.2.2.2.2.2.2.1⟩
  · exact ⟨List.elem_iff.mp hb.2.2.2.2.2.2.2.2.1, List.elem_iff.mp hb.2.2.2.2.2.2.2.2.2.1⟩

/-! ### The lookup tables emitted by the embedder (claim C4) -/

/-- `std::string suffixes[2] = {"_f32", "_f16"}` in `write_embed_files`. -/
def op_table_suffixes : List String := ["_f32", "_f16"]

/-- The job names synthesized by the 2x2x2x2 element-wise lookup-table loops
(`<op><sfx t0><sfx t1><sfx t2>[_rte]`, in emission order). -/
def elementwise_table_names : List String :=
  ["add", "sub", "mul", "div", "add_rms"].flatMap (fun op =>
  op_table_suffixes.flatMap (fun s0 =>
  op_table_suffixes.flatMap (fun s1 =>
  op_table_suffixes.flatMap (fun s2 =>
  [false, true].map (fun rte => op ++ s0 ++ s1 ++ s2 ++ (if rte then "_rte" else ""))))))

/-- The three job names referenced by each `arr_dmmv_<type>_<btype>_f32`
table (`q8_1` b-type included only with integer-dot support, restricted to the
legacy quants, as in the emission loop). -/
def dmmv_table_names (integer_dot : Bool) : List String :=
  (["f16", "f32"] ++ (if integer_dot then ["q8_1"] else [])).flatMap (fun btype =>
  type_names.flatMap (fun tname =>
    if btype == "q8_1" && !is_legacy_quant tname then [] else
    ["mul_mat_vec_" ++ tname ++ "_" ++ btype ++ "_f32",
     "mul_mat_vec_" ++ tname ++ "_" ++ btype ++ "_f32_subgroup",
     "mul_mat_vec_" ++ tname ++ "_" ++ btype ++ "_f32_subgroup_no_shmem"]))

set_option maxRecDepth 100000 in
theorem elementwise_table_subset_b :
    elementwise_table_names.all (fun n => List.elem n ps_elementwise) = true := by decide!

theorem dmmv_table_subset (caps : Caps) :
    ∀ n ∈ dmmv_table_names caps.integer_dot, n ∈ ps_mul_mat_vec caps := by
  intro n hn
  rw [dmmv_table_names, List.mem_flatMap] at hn
  obtain ⟨btype, hb, hn⟩ := hn
  rw [List.mem_flatMap] at hn
  obtain ⟨t, ht, hn⟩ := hn
  rw [ps_mul_mat_vec, List.mem_flatMap]
  refine ⟨t, ht, ?_⟩
  have hb' : btype = "f16" ∨ btype = "f32" ∨ (caps.integer_dot = true ∧ btype = "q8_1") := by
    rcases List.mem_append.mp hb with h | h
    · simp only [List.mem_cons, List.not_mem_nil, or_false] at h
      tauto
    · cases hdot : caps.integer_dot
      · rw [hdot] at h
        simp at h
      · rw [hdot] at h
        simp only [if_true, List.mem_singleton] at h
        exact Or.inr (Or.inr ⟨rfl, h⟩)
  rcases hb' with rfl | rfl | ⟨hdot, rfl⟩
  · simp [String.append_assoc] at hn
    rcases hn with rfl | rfl | rfl <;> simp [String.append_assoc]
  · simp [String.append_assoc] at hn
    rcases hn with rfl | rfl | rfl <;> simp [String.append_assoc]
  · cases hleg : is_legacy_quant t
    · simp [hleg] at hn
    · simp [String.append_assoc, hleg] at hn
      rcases hn with rfl | rfl | rfl <;> simp [String.append_assoc, hdot, hleg]

theorem mem_catalog_of_mem_elementwise (caps : Caps) {n : String}
    (h : n ∈ ps_elementwise) : n ∈ process_shader_names caps := by
  unfold process_shader_names
  simp only [List.mem_append]
  tauto

theorem mem_catalog_of_mem_mul_mat_vec (caps : Caps) {n : String}
    (h : n ∈ ps_mul_mat_vec caps) : n ∈ process_shader_names caps := by
  unfold process_shader_names
  simp only [List.mem_append]
  tauto

/-- C4: every symbol name synthesized for a runtime-dispatch lookup table —
the 2x2x2x2 element-wise tables for add/sub/mul/div/add_rms and the three
entries of every `arr_dmmv_<type>_<btype>_f32` table — is the name of a job
actually present in the catalog, for every capability setting. -/
theorem table_names_in_catalog (caps : Caps) :
    ∀ n ∈ elementwise_table_names ++ dmmv_table_names caps.integer_dot,
      n ∈ process_shader_names caps := by
  intro n hn
  rcases List.mem_append.mp hn with he | hd
  · exact mem_catalog_of_mem_elementwise caps
      (List.elem_iff.mp (List.all_eq_true.mp elementwise_table_subset_b n he))
  · exact mem_catalog_of_mem_mul_mat_vec caps (dmmv_table_subset caps n hd)

/-- Witness for `table_names_in_catalog` at a concrete table entry. -/
theorem table_names_in_catalog_witness :
    ("add_f32_f32_f32" ∈ elementwise_table_names ++ dmmv_table_names noCaps.integer_dot) ∧
    "add_f32_f32_f32" ∈ process_shader_names noCaps := by
  have h : "add_f32_f32_f32" ∈ elementwise_table_names ++ dmmv_table_names noCaps.integer_dot :=
    List.elem_iff.mp (by decide!)
  exact ⟨h, table_names_in_catalog noCaps "add_f32_f32_f32" h⟩

/-! ### The artifact embedder: byte rendering, decoding, per-job chunks -/

def hexDigit (n : Nat) : Char :=
  match n with
  | 0 => '0' | 1 => '1' | 2 => '2' | 3 => '3' | 4 => '4' | 5 => '5' | 6 => '6' | 7 => '7'
  | 8 => '8' | 9 => '9' | 10 => 'a' | 11 => 'b' | 12 => 'c' | 13 => 'd' | 14 => 'e' | _ => 'f'

def hexCharsAux : Nat → Nat → List Char
  | 0, n => [hexDigit (n % 16)]
  | fuel + 1, n => if n < 16 then [hexDigit n] else hexCharsAux fuel (n / 16) ++ [hexDigit (n % 16)]

/-- `std::hex` rendering of a (nonnegative) int: lowercase, no padding. -/
def natToHex (n : Nat) : String := ⟨hexCharsAux n n⟩

def decCharsAux : Nat → Nat → List Char
  | 0, n => [hexDigit (n % 10)]
  | fuel + 1, n => if n < 10 then [hexDigit n] else decCharsAux fuel (n / 10) ++ [hexDigit (n % 10)]

/-- Decimal rendering of a `size_t`. -/
def natToDec (n : Nat) : String := ⟨decCharsAux n n⟩

def hexVal (c : Char) : Nat := if c.toNat ≥ 97 then c.toNat - 87 else c.toNat - 48

def fromHex (l : List Char) : Nat := l.foldl (fun a c => a * 16 + hexVal c) 0

def fromDec (l : List Char) : Nat := l.foldl (fun a c => a * 10 + hexVal c) 0

theorem hexVal_hexDigit : ∀ n < 16, hexVal (hexDigit n) = n := by decide

theorem hexDigit_ne_comma (n : Nat) : hexDigit n ≠ ',' := by
  unfold hexDigit
  split <;> decide

theorem hexDigit_ne_nl (n : Nat) : hexDigit n ≠ '\n' := by
  unfold hexDigit
  split <;> decide

theorem fromHex_append_one (l : List Char) (c : Char) :
    fromHex (l ++ [c]) = (fromHex l) * 16 + hexVal c := by
  simp [fromHex, List.foldl_append]

theorem fromHex_hexCharsAux (fuel n : Nat) (h : n ≤ fuel) :
    fromHex (hexCharsAux fuel n) = n := by
  induction fuel generalizing n with
  | zero =>
    have : n = 0 := Nat.le_zero.mp h
    subst this
    decide
  | succ f ih =>
    rw [hexCharsAux]
    by_cases hn : n < 16
    · rw [if_pos hn]
      simp [fromHex, hexVal_hexDigit n hn]
    · rw [if_neg hn, fromHex_append_one,
        ih (n / 16) (by
          have := Nat.div_lt_self (show 0 < n by omega) (show 1 < 16 by omega)
          omega),
        hexVal_hexDigit (n % 16) (Nat.mod_lt _ (by omega))]
      omega

theorem fromHex_natToHex (n : Nat) : fromHex (natToHex n).data = n :=
  fromHex_hexCharsAux n n le_rfl

theorem fromDec_append_one (l : List Char) (c : Char) :
    fromDec (l ++ [c]) = (fromDec l) * 10 + hexVal c := by
  simp [fromDec, List.foldl_append]

theorem fromDec_decCharsAux (fuel n : Nat) (h : n ≤ fuel) :
    fromDec (decCharsAux fuel n) = n := by
  induction fuel generalizing n with
  | zero =>
    have : n = 0 := Nat.le_zero.mp h
    subst this
    decide
  | succ f ih =>
    rw [decCharsAux]
    by_cases hn : n < 10
    · rw [if_pos hn]
      simp [fromDec, hexVal_hexDigit n (by omega)]
    · rw [if_neg hn, fromDec_append_one,
        ih (n / 10) (by
          have := Nat.div_lt_self (show 0 < n by omega) (show 1 < 10 by omega)
          omega),
        hexVal_hexDigit (n % 10) (by have := Nat.mod_lt n (show 0 < 10 by omega); omega)]
      omega

theorem fromDec_natToDec (n : Nat) : fromDec (natToDec n).data = n :=
  fromDec_decCharsAux n n le_rfl

theorem hexCharsAux_ne (fuel n : Nat) :
    ∀ c ∈ hexCharsAux fuel n, c ≠ ',' ∧ c ≠ '\n' := by
  induction fuel generalizing n with
  | zero =>
    intro c hc
    simp only [hexCharsAux, List.mem_singleton] at hc
    subst hc
    exact ⟨hexDigit_ne_comma _, hexDigit_ne_nl _⟩
  | succ f ih =>
    intro c hc
    rw [hexCharsAux] at hc
    by_cases hn : n < 16
    · rw [if_pos hn] at hc
      simp only [List.mem_singleton] at hc
      subst hc
      exact ⟨hexDigit_ne_comma _, hexDigit_ne_nl _⟩
    · rw [if_neg hn] at hc
      rcases List.mem_append.mp hc with h | h
      · exact ih _ c h
      · simp only [List.mem_singleton] at h
        subst h
        exact ⟨hexDigit_ne_comma _, hexDigit_ne_nl _⟩

/-- One byte loop iteration writes `0x<hex>,` plus a newline every 12 values. -/
def render_hex_bytes : List Nat → Nat → String
  | [], _ => ""
  | b :: rest, i =>
    "0x" ++ natToHex b ++ "," ++ (if (i + 1) % 12 = 0 then "\n" else "") ++
      render_hex_bytes rest (i + 1)

/-- The text the embedder writes between `{` and `}` of a `_data` array. -/
def embed_body (data : List Nat) : String := "\n" ++ render_hex_bytes data 0 ++ "\n"

def hex_token (b : Nat) : List Char := '0' :: 'x' :: (hexCharsAux b b ++ [','])

theorem filter_render_hex_bytes (data : List Nat) (i : Nat) :
    (render_hex_bytes data i).data.filter (fun c => c != '\n') = data.flatMap hex_token := by
  induction data generalizing i with
  | nil => rfl
  | cons b rest ih =>
    show (("0x" ++ natToHex b ++ "," ++ _ ++ render_hex_bytes rest (i + 1)).data.filter _) = _
    rw [String.data_append, String.data_append, String.data_append, String.data_append]
    rw [List.filter_append, List.filter_append, List.filter_append, List.filter_append]
    have h0x : (("0x" : String)).data.filter (fun c => c != '\n') = ['0', 'x'] := rfl
    have hcm : ((("," : String))).data.filter (fun c => c != '\n') = [','] := rfl
    have hhex : (natToHex b).data.filter (fun c => c != '\n') = hexCharsAux b b := by
      refine List.filter_eq_self.mpr ?_
      intro c hc
      have := (hexCharsAux_ne b b c hc).2
      simpa using this
    have hnl : (if (i + 1) % 12 = 0 then ("\n" : String) else "").data.filter
        (fun c => c != '\n') = [] := by
      by_cases h : (i + 1) % 12 = 0 <;> simp [h]
    rw [h0x, hcm, hhex, hnl, ih (i + 1)]
    simp [hex_token, List.flatMap_cons, List.append_assoc]

def parse_hex_token (cs : List Char) : Nat :=
  match cs with
  | '0' :: 'x' :: ds => fromHex ds
  | ds => fromHex ds

def decode_loop : List Char → List Char → List Nat
  | [], tok => if tok.isEmpty then [] else [parse_hex_token tok.reverse]
  | c :: rest, tok =>
    if c = ',' then
      (if tok.isEmpty then decode_loop rest []
       else parse_hex_token tok.reverse :: decode_loop rest [])
    else decode_loop rest (c :: tok)

/-- The decoder of the claim: drop the line wrapping, split at commas, parse
each `0x<hex>` value. -/
def decode_byte_array (s : String) : List Nat :=
  decode_loop (s.data.filter (fun c => c != '\n')) []

theorem decode_loop_consume (cs : List Char) (h : ∀ c ∈ cs, c ≠ ',') (rest tok : List Char) :
    decode_loop (cs ++ rest) tok = decode_loop rest (cs.reverse ++ tok) := by
  induction cs generalizing tok with
  | nil => simp
  | cons c cs2 ih =>
    have hc : c ≠ ',' := h c (List.mem_cons_self _ _)
    show decode_loop (c :: (cs2 ++ rest)) tok = _
    rw [decode_loop, if_neg hc, ih (fun x hx => h x (List.mem_cons_of_mem _ hx))]
    simp [List.append_assoc]

theorem decode_flatMap (data : List Nat) :
    decode_loop (data.flatMap hex_token) [] = data := by
  induction data with
  | nil => rfl
  | cons b rest ih =>
    rw [List.flatMap_cons]
    show decode_loop (('0' :: 'x' :: (hexCharsAux b b ++ [','])) ++ _) [] = _
    rw [show ('0' :: 'x' :: (hexCharsAux b b ++ [','])) ++ rest.flatMap hex_token
        = '0' :: 'x' :: ((hexCharsAux b b ++ [',']) ++ rest.flatMap hex_token) by simp]
    rw [decode_loop, if_neg (by decide), decode_loop, if_neg (by decide)]
    rw [show (hexCharsAux b b ++ [',']) ++ rest.flatMap hex_token
        = hexCharsAux b b ++ ([','] ++ rest.flatMap hex_token) by simp [List.append_assoc]]
    rw [decode_loop_consume (hexCharsAux b b)
        (fun c hc => (hexCharsAux_ne b b c hc).1) _ _]
    show decode_loop (',' :: rest.flatMap hex_token) _ = _
    rw [decode_loop, if_pos rfl]
    have htok : ((hexCharsAux b b).reverse ++ ['x', '0']).isEmpty = false := by
      cases h : (hexCharsAux b b).reverse <;> simp
    rw [if_neg (by simp [htok])]
    have hhead : parse_hex_token (((hexCharsAux b b).reverse ++ ['x', '0']).reverse) = b := by
      rw [List.reverse_append, List.reverse_reverse]
      show parse_hex_token ('0' :: 'x' :: hexCharsAux b b) = b
      rw [parse_hex_token]
      exact fromHex_hexCharsAux b b le_rfl
    rw [hhead, ih]

theorem decode_embed_body (data : List Nat) :
    decode_byte_array (embed_body data) = data := by
  rw [decode_byte_array, embed_body]
  rw [String.data_append, String.data_append]
  rw [List.filter_append, List.filter_append]
  rw [show (("\n" : String)).data.filter (fun c => c != '\n') = [] from rfl]
  rw [filter_render_hex_bytes data 0]
  simp only [List.append_nil, List.nil_append]
  exact decode_flatMap data

abbrev FS := List (String × List Nat)

def fs_lookup : FS → String → Option (List Nat)
  | [], _ => none
  | (p, c) :: t, q => if q = p then some c else fs_lookup t q

def fs_set : FS → String → List Nat → FS
  | [], p, c => [(p, c)]
  | (q, d) :: t, p, c => if p = q then (q, c) :: t else (q, d) :: fs_set t p c

def read_binary_file (fs : FS) (p : String) : List Nat := (fs_lookup fs p).getD []

def write_binary_file (fs : FS) (p : String) (c : List Nat) : FS := fs_set fs p c

def write_file_if_changed (fs : FS) (p : String) (c : List Nat) : FS × Bool :=
  if read_binary_file fs p = c then (fs, false) else (write_binary_file fs p c, true)

def strBytes (s : String) : List Nat := s.data.map Char.toNat

def path_filename (p : String) : String := ⟨(p.data.reverse.takeWhile (fun c => c != '/')).reverse⟩

def embed_hdr_chunk (name : String) (data : List Nat) : String :=
  "extern const unsigned char " ++ name ++ "_data[" ++ natToDec data.length ++ "];\n" ++
  "const uint64_t " ++ name ++ "_len = " ++ natToDec data.length ++ ";\n\n"

def embed_src_chunk (name : String) (data : List Nat) : String :=
  "const unsigned char " ++ name ++ "_data[" ++ natToDec data.length ++ "] = \x7b" ++
  embed_body data ++ "\x7d;\n\n"

def stub_hdr_chunk (name fname : String) : String :=
  "inline constexpr char const * " ++ name ++ "_data = \"" ++ fname ++ "\";\n" ++
  "const uint64_t " ++ name ++ "_len = 0;\n\n"

def write_embed_loop (fs : FS) (no_embed : Bool) : List (String × String) → List String × List String
  | [] => ([], [])
  | (name, path) :: rest =>
    let r := write_embed_loop fs no_embed rest
    if no_embed then (stub_hdr_chunk name (path_filename path) :: r.1, r.2)
    else
      let data := read_binary_file fs path
      if data = [] then r
      else (embed_hdr_chunk name data :: r.1, embed_src_chunk name data :: r.2)

/-- C7: in embed mode, a job whose compiled binary reads back empty (missing,
unreadable or zero-length) contributes no declaration, no length constant and
no definition, and the loop continues with the remaining jobs unchanged; a
job whose binary reads back non-empty contributes both its declaration chunk
and its definition chunk. -/
theorem write_embed_loop_skip_emit (fs : FS) (pre : List (String × String)) (name path : String)
    (post : List (String × String)) :
    (read_binary_file fs path = [] →
      write_embed_loop fs false (pre ++ (name, path) :: post) =
        write_embed_loop fs false (pre ++ post)) ∧
    (read_binary_file fs path ≠ [] →
      embed_hdr_chunk name (read_binary_file fs path) ∈
          (write_embed_loop fs false (pre ++ (name, path) :: post)).1 ∧
      embed_src_chunk name (read_binary_file fs path) ∈
          (write_embed_loop fs false (pre ++ (name, path) :: post)).2) := by
  induction pre with
  | nil =>
    constructor
    · intro h
      show write_embed_loop fs false ((name, path) :: post) = _
      simp [write_embed_loop, h]
    · intro h
      show embed_hdr_chunk name _ ∈ (write_embed_loop fs false ((name, path) :: post)).1 ∧ _
      simp [write_embed_loop, h]
  | cons j t ih =>
    obtain ⟨n1, p1⟩ := j
    constructor
    · intro h
      show write_embed_loop fs false ((n1, p1) :: (t ++ (name, path) :: post)) = _
      rw [write_embed_loop]
      rw [show t ++ (name, path) :: post = t ++ ((name, path) :: post) from rfl] at *
      rw [ih.1 h]
      rfl
    · intro h
      have ihm := ih.2 h
      show _ ∈ (write_embed_loop fs false ((n1, p1) :: (t ++ (name, path) :: post))).1 ∧ _
      simp only [write_embed_loop, Bool.false_eq_true, if_false]
      by_cases h1 : read_binary_file fs p1 = []
      · simp only [if_pos h1]
        exact ihm
      · simp only [if_neg h1, List.mem_cons]
        exact ⟨Or.inr ihm.1, Or.inr ihm.2⟩

/-- One brace level of the 2x2x2x2 table emission: `{` at index 0, both
bodies, then the closing text written after index 1. -/
def table4 (f : Bool → String) (close : String) : String :=
  "\x7b" ++ f false ++ f true ++ close

def op_entry_name (op : String) (t0 t1 t2 rte : Bool) : String :=
  op ++ (if t0 then "_f16" else "_f32") ++ (if t1 then "_f16" else "_f32")
     ++ (if t2 then "_f16" else "_f32") ++ (if rte then "_rte" else "")

def op_table_str (op decl kind : String) : String :=
  decl ++ op ++ kind ++ "[2][2][2][2] = " ++
  table4 (fun t0 => table4 (fun t1 => table4 (fun t2 => table4 (fun rte =>
    op_entry_name op t0 t1 t2 rte ++ kind ++ ",") "\x7d, ") "\x7d, ") "\x7d, ") "\x7d;\n"

def table_ops : List String := ["add", "sub", "mul", "div", "add_rms"]

def op_tables_hdr : String :=
  String.join (table_ops.map (fun op =>
    "extern const void * " ++ op ++ "_data[2][2][2][2];\n" ++
    "extern const uint64_t " ++ op ++ "_len[2][2][2][2];\n"))

def op_tables_src : String :=
  String.join (table_ops.map (fun op =>
    op_table_str op "const void * " "_data" ++ op_table_str op "const uint64_t " "_len"))

def dmmv_btypes (integer_dot : Bool) : List String :=
  ["f16", "f32"] ++ (if integer_dot then ["q8_1"] else [])

def dmmv_tables_hdr (integer_dot : Bool) : String :=
  String.join ((dmmv_btypes integer_dot).flatMap (fun btype =>
    type_names.flatMap (fun tname =>
      if btype == "q8_1" && !is_legacy_quant tname then [] else
      ["extern const void * arr_dmmv_" ++ tname ++ "_" ++ btype ++ "_f32_data[3];\n" ++
       "extern const uint64_t arr_dmmv_" ++ tname ++ "_" ++ btype ++ "_f32_len[3];\n"])))

def dmmv_tables_src (integer_dot : Bool) : String :=
  String.join ((dmmv_btypes integer_dot).flatMap (fun btype =>
    type_names.flatMap (fun tname =>
      if btype == "q8_1" && !is_legacy_quant tname then [] else
      ["const void * arr_dmmv_" ++ tname ++ "_" ++ btype ++ "_f32_data[3] = \x7bmul_mat_vec_" ++
         tname ++ "_" ++ btype ++ "_f32_data, mul_mat_vec_" ++ tname ++ "_" ++ btype ++
         "_f32_subgroup_data, mul_mat_vec_" ++ tname ++ "_" ++ btype ++
         "_f32_subgroup_no_shmem_data\x7d;\n" ++
       "const uint64_t arr_dmmv_" ++ tname ++ "_" ++ btype ++ "_f32_len[3] =  \x7bmul_mat_vec_" ++
         tname ++ "_" ++ btype ++ "_f32_len,  mul_mat_vec_" ++ tname ++ "_" ++ btype ++
         "_f32_subgroup_len, mul_mat_vec_" ++ tname ++ "_" ++ btype ++
         "_f32_subgroup_no_shmem_len\x7d;\n"])))

def pair_lt (a b : String × String) : Bool :=
  strLt a.1 b.1 || (a.1 == b.1 && strLt a.2 b.2)

def insert_sorted (x : String × String) : List (String × String) → List (String × String)
  | [] => [x]
  | y :: t => if pair_lt x y then x :: y :: t else y :: insert_sorted x t

def sortJobs : List (String × String) → List (String × String)
  | [] => []
  | x :: t => insert_sorted x (sortJobs t)

/-- The full text of the declarations header: fixed prefix, per-job chunks in
sorted job order, then the lookup-table declarations. -/
def embed_hdr_text (fs : FS) (shader_fnames : List (String × String)) (no_embed : Bool)
    (output_dir : String) (integer_dot : Bool) : String :=
  "#include <cstdint>\n\n" ++
  (if no_embed then "#define GGML_VK_SHADER_DIR \"" ++ output_dir ++ "\"\n\n" else "") ++
  String.join (write_embed_loop fs no_embed (sortJobs shader_fnames)).1 ++
  op_tables_hdr ++ dmmv_tables_hdr integer_dot

/-- The full text of the definitions source: include of the header, per-job
chunks in sorted job order, then the lookup-table definitions. -/
def embed_src_text (fs : FS) (shader_fnames : List (String × String)) (no_embed : Bool)
    (target_hpp : String) (integer_dot : Bool) : String :=
  "#include \"" ++ path_filename target_hpp ++ "\"\n\n" ++
  String.join (write_embed_loop fs no_embed (sortJobs shader_fnames)).2 ++
  op_tables_src ++ dmmv_tables_src integer_dot

/-- `write_embed_files`: build both units, then write the header through the
change-detection writer; the definitions source goes through the
change-detection writer only in no-embed mode and is written unconditionally
in embed mode.  Returns the new file system and the list of paths written. -/
def write_embed_files (fs : FS) (shader_fnames : List (String × String))
    (target_hpp target_cpp : String) (no_embed : Bool) (output_dir : String)
    (integer_dot : Bool) : FS × List String :=
  let r1 := write_file_if_changed fs target_hpp
    (strBytes (embed_hdr_text fs shader_fnames no_embed output_dir integer_dot))
  if no_embed then
    let r2 := write_file_if_changed r1.1 target_cpp
      (strBytes (embed_src_text fs shader_fnames no_embed target_hpp integer_dot))
    (r2.1, (if r1.2 then [target_hpp] else []) ++ (if r2.2 then [target_cpp] else []))
  else
    (write_binary_file r1.1 target_cpp
      (strBytes (embed_src_text fs shader_fnames no_embed target_hpp integer_dot)),
     (if r1.2 then [target_hpp] else []) ++ [target_cpp])

/-- `cmake_lists::write`: the build-graph CMakeLists is written through the
change-detection writer (`write_file_if_changed(target_filepath, out.str())`). -/
def cmake_write (fs : FS) (target_filepath : String) (out_str : String) : FS × Bool :=
  write_file_if_changed fs target_filepath (strBytes out_str)

theorem fs_lookup_set_self (fs : FS) (p : String) (c : List Nat) :
    fs_lookup (fs_set fs p c) p = some c := by
  induction fs with
  | nil => simp [fs_set, fs_lookup]
  | cons q t ih =>
    obtain ⟨q1, d1⟩ := q
    by_cases h : p = q1
    · simp [fs_set, h, fs_lookup]
    · simp [fs_set, h, fs_lookup, ih]

theorem fs_lookup_set_ne (fs : FS) (p q : String) (c : List Nat) (h : q ≠ p) :
    fs_lookup (fs_set fs p c) q = fs_lookup fs q := by
  induction fs with
  | nil => simp [fs_set, fs_lookup, h]
  | cons r t ih =>
    obtain ⟨r1, d1⟩ := r
    by_cases h1 : p = r1
    · subst h1
      simp [fs_set, fs_lookup, h]
    · by_cases h2 : q = r1 <;> simp [fs_set, h1, fs_lookup, h2, ih]

theorem read_wfic_self (fs : FS) (p : String) (c : List Nat) :
    read_binary_file (write_file_if_changed fs p c).1 p = c := by
  rw [write_file_if_changed]
  by_cases h : read_binary_file fs p = c
  · rw [if_pos h]
    exact h
  · rw [if_neg h]
    show read_binary_file (write_binary_file fs p c) p = c
    simp only [read_binary_file, write_binary_file, fs_lookup_set_self]
    rfl

theorem read_wfic_ne (fs : FS) (p q : String) (c : List Nat) (h : q ≠ p) :
    read_binary_file (write_file_if_changed fs p c).1 q = read_binary_file fs q := by
  rw [write_file_if_changed]
  by_cases h1 : read_binary_file fs p = c
  · rw [if_pos h1]
  · rw [if_neg h1]
    show read_binary_file (write_binary_file fs p c) q = read_binary_file fs q
    simp only [read_binary_file, write_binary_file, fs_lookup_set_ne fs p q c h]

theorem fs_set_self_id (fs : FS) (p : String) (c : List Nat)
    (h : fs_lookup fs p = some c) : fs_set fs p c = fs := by
  induction fs with
  | nil => simp [fs_lookup] at h
  | cons q t ih =>
    obtain ⟨q1, d1⟩ := q
    by_cases h1 : p = q1
    · subst h1
      rw [fs_lookup, if_pos rfl] at h
      simp at h
      simp [fs_set, h]
    · rw [fs_lookup, if_neg h1] at h
      simp [fs_set, h1, ih h]

theorem mem_insert_sorted {x y : String × String} {l : List (String × String)}
    (h : y ∈ insert_sorted x l) : y = x ∨ y ∈ l := by
  induction l with
  | nil => simpa [insert_sorted] using h
  | cons z t ih =>
    by_cases h1 : pair_lt x z
    · rcases (by simpa [insert_sorted, h1] using h : y = x ∨ y = z ∨ y ∈ t) with h | h | h
      · exact Or.inl h
      · exact Or.inr (by simp [h])
      · exact Or.inr (List.mem_cons_of_mem _ h)
    · rcases (by simpa [insert_sorted, h1] using h : y = z ∨ y ∈ insert_sorted x t) with h | h
      · exact Or.inr (by simp [h])
      · rcases ih h with h | h
        · exact Or.inl h
        · exact Or.inr (List.mem_cons_of_mem _ h)

theorem mem_sortJobs {y : String × String} {l : List (String × String)}
    (h : y ∈ sortJobs l) : y ∈ l := by
  induction l with
  | nil => simpa [sortJobs] using h
  | cons x t ih =>
    rcases mem_insert_sorted (by simpa [sortJobs] using h) with h | h
    · simp [h]
    · exact List.mem_cons_of_mem _ (ih h)

theorem write_embed_loop_congr (fs1 fs2 : FS) (no_embed : Bool)
    (js : List (String × String)) (h : ∀ j ∈ js, read_binary_file fs1 j.2 = read_binary_file fs2 j.2) :
    write_embed_loop fs1 no_embed js = write_embed_loop fs2 no_embed js := by
  induction js with
  | nil => rfl
  | cons j t ih =>
    obtain ⟨n1, p1⟩ := j
    have h1 := h (n1, p1) (List.mem_cons_self _ _)
    have ht := ih (fun x hx => h x (List.mem_cons_of_mem _ hx))
    simp only [write_embed_loop, ht, h1]

/-- C3, amended: the declarations header, the build-graph CMakeLists
(`cmake_write`), and — in no-embed mode — the stub definitions source are all
written through the change-detection writer, which never writes when the file
already holds the new content (first conjunct), so repeating any of those
writes with identical content is a no-op (last conjunct for the CMakeLists,
no-embed conjunct for header and stub source); but in embed mode the
definitions source is written unconditionally with `write_binary_file`, so a
second run with identical inputs writes exactly the definitions source again,
leaving the file system content unchanged. -/
theorem write_embed_files_second_run (fs : FS) (jobs : List (String × String))
    (hpp cpp outdir : String) (dot : Bool) (hne : hpp ≠ cpp)
    (hjobs : ∀ j ∈ jobs, j.2 ≠ hpp ∧ j.2 ≠ cpp) :
    (∀ (fs2 : FS) (p : String) (c : List Nat),
      (write_file_if_changed (write_file_if_changed fs2 p c).1 p c).2 = false) ∧
    ((write_embed_files (write_embed_files fs jobs hpp cpp false outdir dot).1
        jobs hpp cpp false outdir dot).2 = [cpp] ∧
     (write_embed_files (write_embed_files fs jobs hpp cpp false outdir dot).1
        jobs hpp cpp false outdir dot).1 =
       (write_embed_files fs jobs hpp cpp false outdir dot).1) ∧
    ((write_embed_files (write_embed_files fs jobs hpp cpp true outdir dot).1
        jobs hpp cpp true outdir dot).2 = [] ∧
     (write_embed_files (write_embed_files fs jobs hpp cpp true outdir dot).1
        jobs hpp cpp true outdir dot).1 =
       (write_embed_files fs jobs hpp cpp true outdir dot).1) ∧
    (∀ (fs2 : FS) (p : String) (s : String),
      cmake_write (cmake_write fs2 p s).1 p s = ((cmake_write fs2 p s).1, false)) := by
  have hgen : ∀ (fs2 : FS) (p : String) (c : List Nat),
      (write_file_if_changed (write_file_if_changed fs2 p c).1 p c).2 = false := by
    intro fs2 p c
    rw [write_file_if_changed, if_pos (read_wfic_self fs2 p c)]
  have read_set_ne : ∀ (fs2 : FS) (p q : String) (cc : List Nat), q ≠ p →
      read_binary_file (fs_set fs2 p cc) q = read_binary_file fs2 q := by
    intro fs2 p q cc hq
    simp only [read_binary_file, fs_lookup_set_ne fs2 p q cc hq]
  refine ⟨hgen, ?_, ?_, ?_⟩
  · -- embed mode
    set hdrB := strBytes (embed_hdr_text fs jobs false outdir dot) with hhdrB
    set srcB := strBytes (embed_src_text fs jobs false hpp dot) with hsrcB
    set fsA := (write_file_if_changed fs hpp hdrB).1 with hfsA
    have hrun1 : (write_embed_files fs jobs hpp cpp false outdir dot).1
        = fs_set fsA cpp srcB := rfl
    set fs1 := fs_set fsA cpp srcB with hfs1
    have hreads : ∀ j ∈ jobs, read_binary_file fs1 j.2 = read_binary_file fs j.2 := by
      intro j hj
      obtain ⟨hjh, hjc⟩ := hjobs j hj
      rw [hfs1, read_set_ne fsA cpp j.2 srcB hjc, hfsA, read_wfic_ne fs hpp j.2 hdrB hjh]
    have hcongr : write_embed_loop fs1 false (sortJobs jobs)
        = write_embed_loop fs false (sortJobs jobs) :=
      write_embed_loop_congr fs1 fs false (sortJobs jobs)
        (fun j hj => hreads j (mem_sortJobs hj))
    have hH : embed_hdr_text fs1 jobs false outdir dot
        = embed_hdr_text fs jobs false outdir dot := by
      simp only [embed_hdr_text, hcongr]
    have hS : embed_src_text fs1 jobs false hpp dot
        = embed_src_text fs jobs false hpp dot := by
      simp only [embed_src_text, hcongr]
    have hread_hpp : read_binary_file fs1 hpp = hdrB := by
      rw [hfs1, read_set_ne fsA cpp hpp srcB hne, hfsA, read_wfic_self fs hpp hdrB]
    have hwfic1 : write_file_if_changed fs1 hpp hdrB = (fs1, false) := by
      rw [write_file_if_changed, if_pos hread_hpp]
    have hlook : fs_lookup fs1 cpp = some srcB := by
      rw [hfs1]
      exact fs_lookup_set_self fsA cpp srcB
    have hset : fs_set fs1 cpp srcB = fs1 := fs_set_self_id fs1 cpp srcB hlook
    rw [hrun1]
    simp only [write_embed_files, hH, hS, ← hhdrB, ← hsrcB, hwfic1,
      Bool.false_eq_true, if_false]
    exact ⟨rfl, hset⟩
  · -- no-embed mode
    have hstub : ∀ (fsx : FS), write_embed_loop fsx true (sortJobs jobs)
        = write_embed_loop fs true (sortJobs jobs) := by
      intro fsx
      induction sortJobs jobs with
      | nil => rfl
      | cons j t ih =>
        obtain ⟨n1, p1⟩ := j
        simp [write_embed_loop, ih]
    set hdrB := strBytes (embed_hdr_text fs jobs true outdir dot) with hhdrB
    set srcB := strBytes (embed_src_text fs jobs true hpp dot) with hsrcB
    set fsA := (write_file_if_changed fs hpp hdrB).1 with hfsA
    set fs1 := (write_file_if_changed fsA cpp srcB).1 with hfs1
    have hrun1 : (write_embed_files fs jobs hpp cpp true outdir dot).1 = fs1 := rfl
    have hH : embed_hdr_text fs1 jobs true outdir dot
        = embed_hdr_text fs jobs true outdir dot := by
      simp only [embed_hdr_text, hstub fs1]
    have hS : embed_src_text fs1 jobs true hpp dot
        = embed_src_text fs jobs true hpp dot := by
      simp only [embed_src_text, hstub fs1]
    have hread_hpp : read_binary_file fs1 hpp = hdrB := by
      rw [hfs1, read_wfic_ne fsA cpp hpp srcB hne, hfsA, read_wfic_self fs hpp hdrB]
    have hread_cpp : read_binary_file fs1 cpp = srcB := by
      rw [hfs1, read_wfic_self fsA cpp srcB]
    have hwfic1 : write_file_if_changed fs1 hpp hdrB = (fs1, false) := by
      rw [write_file_if_changed, if_pos hread_hpp]
    have hwfic2 : write_file_if_changed fs1 cpp srcB = (fs1, false) := by
      rw [write_file_if_changed, if_pos hread_cpp]
    rw [hrun1]
    simp only [write_embed_files, hH, hS, ← hhdrB, ← hsrcB, hwfic1, if_true]
    rw [hwfic2]
    exact ⟨rfl, rfl⟩
  · -- the CMakeLists unit: a repeated identical write is a no-op
    intro fs2 p s
    show write_file_if_changed (write_file_if_changed fs2 p (strBytes s)).1 p (strBytes s)
        = ((write_file_if_changed fs2 p (strBytes s)).1, false)
    rw [write_file_if_changed, if_pos (read_wfic_self fs2 p (strBytes s))]

/-- Witness for `write_embed_loop_skip_emit`: on a file system holding only
`b.spv`, job `a` is skipped entirely while job `b` gets both chunks. -/
theorem write_embed_loop_skip_emit_witness :
    (write_embed_loop [("b.spv", [1, 2])] false ([] ++ ("a", "a.spv") :: [("b", "b.spv")]) =
      write_embed_loop [("b.spv", [1, 2])] false ([] ++ [("b", "b.spv")])) ∧
    (embed_hdr_chunk "b" (read_binary_file [("b.spv", [1, 2])] "b.spv") ∈
        (write_embed_loop [("b.spv", [1, 2])] false ([] ++ ("b", "b.spv") :: [])).1 ∧
     embed_src_chunk "b" (read_binary_file [("b.spv", [1, 2])] "b.spv") ∈
        (write_embed_loop [("b.spv", [1, 2])] false ([] ++ ("b", "b.spv") :: [])).2) :=
  ⟨(write_embed_loop_skip_emit [("b.spv", [1, 2])] [] "a" "a.spv" [("b", "b.spv")]).1
      (by decide!),
   (write_embed_loop_skip_emit [("b.spv", [1, 2])] [] "b" "b.spv" []).2 (by decide!)⟩

/-- C9: the embedding round-trips — decoding the emitted comma-separated
hexadecimal byte literal written between the braces of a `_data` array
recovers exactly the original byte sequence, and the emitted `_len` number
denotes exactly the byte count. -/
theorem embed_roundtrip (data : List Nat) :
    decode_byte_array (embed_body data) = data ∧
    fromDec (natToDec data.length).data = data.length :=
  ⟨decode_embed_body data, fromDec_natToDec data.length⟩

set_option maxRecDepth 100000 in
/-- C3, counterexample: running the embed-mode generator twice on identical
inputs writes the definitions source again on the second run — it is written
with `write_binary_file`, not through the change-detection writer, so the
second run is NOT write-free. -/
theorem write_embed_files_counterexample :
    (write_embed_files (write_embed_files [("out/a.spv", [7])] [("a", "out/a.spv")]
        "shaders.hpp" "shaders.cpp" false "out" false).1
      [("a", "out/a.spv")] "shaders.hpp" "shaders.cpp" false "out" false).2 = ["shaders.cpp"] ∧
    (write_embed_files (write_embed_files [("out/a.spv", [7])] [("a", "out/a.spv")]
        "shaders.hpp" "shaders.cpp" false "out" false).1
      [("a", "out/a.spv")] "shaders.hpp" "shaders.cpp" false "out" false).2 ≠ [] := by
  have h : (write_embed_files (write_embed_files [("out/a.spv", [7])] [("a", "out/a.spv")]
      "shaders.hpp" "shaders.cpp" false "out" false).1
      [("a", "out/a.spv")] "shaders.hpp" "shaders.cpp" false "out" false).2 = ["shaders.cpp"] := by
    decide!
  exact ⟨h, by rw [h]; decide⟩

/-- Witness for `write_embed_files_second_run` at a concrete one-job setup. -/
theorem write_embed_files_second_run_witness :
    ("shaders.hpp" ≠ "shaders.cpp") ∧
    (∀ j ∈ [("a", "out/a.spv")], (j : String × String).2 ≠ "shaders.hpp" ∧ j.2 ≠ "shaders.cpp") ∧
    ((∀ (fs2 : FS) (p : String) (c : List Nat),
      (write_file_if_changed (write_file_if_changed fs2 p c).1 p c).2 = false) ∧
    ((write_embed_files (write_embed_files [("out/a.spv", [7])] [("a", "out/a.spv")]
        "shaders.hpp" "shaders.cpp" false "out" false).1
        [("a", "out/a.spv")] "shaders.hpp" "shaders.cpp" false "out" false).2 = ["shaders.cpp"] ∧
     (write_embed_files (write_embed_files [("out/a.spv", [7])] [("a", "out/a.spv")]
        "shaders.hpp" "shaders.cpp" false "out" false).1
        [("a", "out/a.spv")] "shaders.hpp" "shaders.cpp" false "out" false).1 =
       (write_embed_files [("out/a.spv", [7])] [("a", "out/a.spv")]
        "shaders.hpp" "shaders.cpp" false "out" false).1) ∧
    ((write_embed_files (write_embed_files [("out/a.spv", [7])] [("a", "out/a.spv")]
        "shaders.hpp" "shaders.cpp" true "out" false).1
        [("a", "out/a.spv")] "shaders.hpp" "shaders.cpp" true "out" false).2 = [] ∧
     (write_embed_files (write_embed_files [("out/a.spv", [7])] [("a", "out/a.spv")]
        "shaders.hpp" "shaders.cpp" true "out" false).1
        [("a", "out/a.spv")] "shaders.hpp" "shaders.cpp" true "out" false).1 =
       (write_embed_files [("out/a.spv", [7])] [("a", "out/a.spv")]
        "shaders.hpp" "shaders.cpp" true "out" false).1) ∧
    (∀ (fs2 : FS) (p : String) (s : String),
      cmake_write (cmake_write fs2 p s).1 p s = ((cmake_write fs2 p s).1, false))) :=
  ⟨by decide, by decide, write_embed_files_second_run [("out/a.spv", [7])] [("a", "out/a.spv")]
    "shaders.hpp" "shaders.cpp" "out" false (by decide) (by decide)⟩

/-! Command-line argument parsing (`main`, lines 853-864). -/

abbrev ArgsMap := SMap

/-- The C++ `args[arg] = value` (`operator[]` plus assignment: overwrites an
existing binding, inserts otherwise; key order is irrelevant to `mapFind`). -/
def map_assign : ArgsMap → String → String → ArgsMap
  | [], k, v => [(k, v)]
  | (k1, v1) :: t, k, v => if k = k1 then (k1, v) :: t else (k1, v1) :: map_assign t k v

/-- The argument loop of `main`: a token starting with `--` takes the next
token as value when that token exists and its first character is not a dash
(the C check `argv[i+1][0] != '-'`, which is true for an empty next token),
and the empty string otherwise; other tokens are skipped. -/
def parse_loop (args : ArgsMap) : List String → ArgsMap
  | [] => args
  | a :: rest =>
    if string_starts_with a "--" then
      match rest with
      | [] => parse_loop (map_assign args a "") []
      | b :: rest2 =>
        if b.data.head? ≠ some '-' then parse_loop (map_assign args a b) rest2
        else parse_loop (map_assign args a "") (b :: rest2)
    else parse_loop args rest

def parse_args (argv : List String) : ArgsMap := parse_loop [] argv

/-- The value the claim assigns to one occurrence of an option: the next
token if it exists and does not start with a dash, else the empty string. -/
def occ_value : List String → String
  | [] => ""
  | b :: _ => if b.data.head? ≠ some '-' then b else ""

/-- Spec-side formalization of the claim (C10): the value of the LAST
occurrence of option `t` in the token list, each occurrence valued by
`occ_value` on the tokens after it; `none` when `t` never occurs. -/
def spec_opt_value (t : String) : List String → Option String
  | [] => none
  | a :: rest =>
    if a = t then
      match spec_opt_value t rest with
      | some v => some v
      | none => some (occ_value rest)
    else spec_opt_value t rest

theorem parse_loop_nil (args : ArgsMap) : parse_loop args [] = args := rfl

theorem parse_loop_one (args : ArgsMap) (a : String) :
    parse_loop args [a] =
      if string_starts_with a "--" then parse_loop (map_assign args a "") []
      else parse_loop args [] := rfl

theorem parse_loop_cons2 (args : ArgsMap) (a b : String) (rest2 : List String) :
    parse_loop args (a :: b :: rest2) =
      if string_starts_with a "--" then
        (if b.data.head? ≠ some '-' then parse_loop (map_assign args a b) rest2
         else parse_loop (map_assign args a "") (b :: rest2))
      else parse_loop args (b :: rest2) := rfl

theorem spec_opt_value_cons (t a : String) (rest : List String) :
    spec_opt_value t (a :: rest) =
      if a = t then
        match spec_opt_value t rest with
        | some v => some v
        | none => some (occ_value rest)
      else spec_opt_value t rest := rfl

theorem find_map_assign_self (m : ArgsMap) (k v : String) :
    mapFind (map_assign m k v) k = some v := by
  induction m with
  | nil => simp [map_assign, mapFind]
  | cons p t ih =>
    obtain ⟨k1, v1⟩ := p
    by_cases h : k = k1
    · subst h
      simp [map_assign, mapFind]
    · simp [map_assign, h, mapFind, ih]

theorem find_map_assign_ne (m : ArgsMap) (k v q : String) (h : q ≠ k) :
    mapFind (map_assign m k v) q = mapFind m q := by
  induction m with
  | nil => simp [map_assign, mapFind, h]
  | cons p t ih =>
    obtain ⟨k1, v1⟩ := p
    by_cases h1 : k = k1
    · subst h1
      simp [map_assign, mapFind, h]
    · by_cases h2 : q = k1 <;> simp [map_assign, h1, mapFind, h2, ih]

theorem starts_dd_head {t : String} (h : string_starts_with t "--" = true) :
    t.data.head? = some '-' := by
  rw [string_starts_with] at h
  cases ht : t.data with
  | nil => rw [ht] at h; simp [List.isPrefixOf] at h
  | cons c l =>
    rw [ht] at h
    have : ('-' == c) = true := by
      cases hc : ('-' == c)
      · rw [show ("--" : String).data = ['-', '-'] from rfl] at h
        rw [List.isPrefixOf, hc] at h
        simp at h
      · rfl
    simp [List.head?, (beq_iff_eq.mp this).symm]

theorem parse_loop_spec (t : String) (ht : string_starts_with t "--" = true) :
    ∀ (n : Nat) (argv : List String), argv.length ≤ n → ∀ (args : ArgsMap),
      mapFind (parse_loop args argv) t =
        match spec_opt_value t argv with
        | some v => some v
        | none => mapFind args t := by
  intro n
  induction n with
  | zero =>
    intro argv h args
    have : argv = [] := List.eq_nil_of_length_eq_zero (Nat.le_zero.mp h)
    subst this
    simp [parse_loop, spec_opt_value]
  | succ m ih =>
    intro argv hlen args
    cases argv with
    | nil => simp [parse_loop, spec_opt_value]
    | cons a rest =>
      simp only [List.length_cons] at hlen
      by_cases hstart : string_starts_with a "--"
      · cases rest with
        | nil =>
          rw [parse_loop_one args a, if_pos hstart, parse_loop_nil]
          by_cases hat : a = t
          · subst hat
            rw [show spec_opt_value a [a] = some "" by
              rw [spec_opt_value_cons a a [], if_pos rfl]
              rfl]
            exact find_map_assign_self args a ""
          · rw [show spec_opt_value t [a] = none by
              rw [spec_opt_value_cons t a [], if_neg hat]
              rfl]
            exact find_map_assign_ne args a "" t (Ne.symm hat)
        | cons b rest2 =>
          simp only [List.length_cons] at hlen
          have hbspec : ∀ s : String, s ≠ b →
              spec_opt_value s (b :: rest2) = spec_opt_value s rest2 := by
            intro s hs
            rw [spec_opt_value_cons s b rest2, if_neg (Ne.symm hs)]
          by_cases hb : b.data.head? ≠ some '-'
          · rw [parse_loop_cons2 args a b rest2, if_pos hstart, if_pos hb]
            rw [ih rest2 (by omega) (map_assign args a b)]
            have hbt : t ≠ b := fun he => hb (he ▸ starts_dd_head ht)
            by_cases hat : a = t
            · subst hat
              rw [spec_opt_value_cons a a (b :: rest2), if_pos rfl,
                hbspec a hbt, show occ_value (b :: rest2) = b by simp [occ_value, hb]]
              cases hs : spec_opt_value a rest2 <;> simp [find_map_assign_self]
            · rw [spec_opt_value_cons t a (b :: rest2), if_neg hat, hbspec t hbt]
              cases hs : spec_opt_value t rest2 <;>
                simp [find_map_assign_ne args a b t (Ne.symm hat)]
          · rw [parse_loop_cons2 args a b rest2, if_pos hstart, if_neg hb]
            rw [ih (b :: rest2) (by simp only [List.length_cons]; omega) (map_assign args a "")]
            by_cases hat : a = t
            · subst hat
              rw [spec_opt_value_cons a a (b :: rest2), if_pos rfl,
                show occ_value (b :: rest2) = "" by simp [occ_value, hb]]
              cases hs : spec_opt_value a (b :: rest2) <;> simp [find_map_assign_self]
            · rw [spec_opt_value_cons t a (b :: rest2), if_neg hat]
              cases hs : spec_opt_value t (b :: rest2) <;>
                simp [find_map_assign_ne args a "" t (Ne.symm hat)]
      · have hne : a ≠ t := fun he => hstart (he ▸ ht)
        cases rest with
        | nil =>
          rw [parse_loop_one args a, if_neg hstart, parse_loop_nil]
          rw [spec_opt_value_cons t a [], if_neg hne]
          rfl
        | cons b rest2 =>
          rw [parse_loop_cons2 args a b rest2, if_neg hstart]
          rw [ih (b :: rest2) (by simp only [List.length_cons] at hlen ⊢; omega) args]
          rw [spec_opt_value_cons t a (b :: rest2), if_neg hne]

/-- C10: for every option token `t` (a token starting with `--`), the value
recorded by the argument parser of `main` is exactly the claim's semantics:
the last occurrence of `t` in the argument list wins, and a single
occurrence takes the immediately following token as its value exactly when
that token exists and its first character is not a dash, taking the empty
string otherwise (`spec_opt_value`); an option that never occurs is absent
from the parsed map. -/
theorem parse_args_spec (argv : List String) (t : String)
    (ht : string_starts_with t "--" = true) :
    mapFind (parse_args argv) t = spec_opt_value t argv := by
  rw [parse_args, parse_loop_spec t ht argv.length argv le_rfl []]
  cases hs : spec_opt_value t argv <;> simp [mapFind]

/-- Witness for `parse_args_spec`: an option given twice, once followed by a
dash-led token (not consumed) and once by a plain token (consumed). -/
theorem parse_args_spec_witness :
    string_starts_with "--input-dir" "--" = true ∧
    mapFind (parse_args ["--input-dir", "-x", "--input-dir", "dir2", "tail"]) "--input-dir" =
      spec_opt_value "--input-dir" ["--input-dir", "-x", "--input-dir", "dir2", "tail"] :=
  ⟨by decide, parse_args_spec ["--input-dir", "-x", "--input-dir", "dir2", "tail"]
    "--input-dir" (by decide)⟩

/-! Exit codes of `main` (lines 852-939). -/

structure MainResult where
  exit_code : Nat
  jobs : List String

/-- Model of `main` after argument parsing: `--help` prints usage and
returns `EXIT_SUCCESS` (0); `--no-embed` with an empty `target_cmake`
returns `EXIT_FAILURE` (1) before any job is generated; a missing input
directory returns `EXIT_FAILURE` (1) before `process_shaders` runs;
otherwise `process_shaders` builds the catalog and `main` returns 0.
`fs_exists` stands for `std::filesystem::exists`. -/
def mainModel (caps : Caps) (argv : List String) (fs_exists : String → Bool) : MainResult :=
  let args := parse_args argv
  let input_dir := (mapFind args "--input-dir").getD "vulkan-shaders"
  let target_cmake := (mapFind args "--target-cmake").getD ""
  let no_embed := (mapFind args "--no-embed").isSome
  if (mapFind args "--help").isSome then ⟨0, []⟩
  else if no_embed && (target_cmake == "") then ⟨1, []⟩
  else if fs_exists input_dir then ⟨0, process_shader_names caps⟩
  else ⟨1, []⟩

/-- C8: when `--help` is not supplied, the exit code of `main` is nonzero
and no job is generated if `--no-embed` is passed without a (nonempty)
`--target-cmake`, or if the input directory does not exist; in every other
case `main` succeeds with exit code 0 and the catalog is generated. -/
theorem mainModel_exit_codes (caps : Caps) (argv : List String) (fs_exists : String → Bool)
    (hh : mapFind (parse_args argv) "--help" = none) :
    ((mapFind (parse_args argv) "--no-embed").isSome = true ∧
        (mapFind (parse_args argv) "--target-cmake").getD "" = "" →
      (mainModel caps argv fs_exists).exit_code ≠ 0 ∧
        (mainModel caps argv fs_exists).jobs = []) ∧
    (((mapFind (parse_args argv) "--no-embed").isSome = true →
        (mapFind (parse_args argv) "--target-cmake").getD "" ≠ "") →
      fs_exists ((mapFind (parse_args argv) "--input-dir").getD "vulkan-shaders") = false →
      (mainModel caps argv fs_exists).exit_code ≠ 0 ∧
        (mainModel caps argv fs_exists).jobs = []) ∧
    (((mapFind (parse_args argv) "--no-embed").isSome = true →
        (mapFind (parse_args argv) "--target-cmake").getD "" ≠ "") →
      fs_exists ((mapFind (parse_args argv) "--input-dir").getD "vulkan-shaders") = true →
      (mainModel caps argv fs_exists).exit_code = 0 ∧
        (mainModel caps argv fs_exists).jobs = process_shader_names caps) := by
  simp only [mainModel, hh, Option.isSome_none, Bool.false_eq_true, if_false]
  refine ⟨?_, ?_, ?_⟩
  · rintro ⟨hne, htc⟩
    rw [if_pos (by rw [hne, htc]; rfl)]
    exact ⟨by decide, rfl⟩
  · intro hcompat hex
    have hcond : ((mapFind (parse_args argv) "--no-embed").isSome &&
        ((mapFind (parse_args argv) "--target-cmake").getD "" == "")) = false := by
      cases hne : (mapFind (parse_args argv) "--no-embed").isSome
      · rfl
      · simp [hcompat hne]
    rw [if_neg (by rw [hcond]; exact Bool.false_ne_true),
      if_neg (by rw [hex]; exact Bool.false_ne_true)]
    exact ⟨by decide, rfl⟩
  · intro hcompat hex
    have hcond : ((mapFind (parse_args argv) "--no-embed").isSome &&
        ((mapFind (parse_args argv) "--target-cmake").getD "" == "")) = false := by
      cases hne : (mapFind (parse_args argv) "--no-embed").isSome
      · rfl
      · simp [hcompat hne]
    rw [if_neg (by rw [hcond]; exact Bool.false_ne_true), if_pos hex]
    exact ⟨rfl, rfl⟩

/-- Witness for `mainModel_exit_codes`: passing only `--no-embed` makes
`main` fail with a nonzero exit code and no generated job. -/
theorem mainModel_exit_codes_witness :
    (mapFind (parse_args ["--no-embed"]) "--help" = none) ∧
    ((mainModel noCaps ["--no-embed"] (fun _ => true)).exit_code ≠ 0 ∧
     (mainModel noCaps ["--no-embed"] (fun _ => true)).jobs = []) :=
  ⟨by decide,
    (mainModel_exit_codes noCaps ["--no-embed"] (fun _ => true) (by decide)).1 (by decide)⟩
